import Mathlib

/-!
Verification of the weather_analysis data pipeline.

Shallow embedding of the two pipeline stages:
* `src/data/get_data.py`     — fetch-and-cache stage (Fetcher, PayloadCache);
* `src/data/make_interim.py` — consolidation stage (CSV and pickle outputs);
* `src/data/make_csv.py`     — older consolidation stage (CSV output only).

Filesystem, network and pandas operations are embedded as pure functions:
the on-disk day cache becomes a map from day-of-year to an optional payload,
the remote API becomes an oracle function, a DataFrame becomes a list of
rows (association lists from column name to cell value), and `glob` results
become explicit input lists (glob returns entries in unspecified order, so
the listing order is a parameter of the embedding).
-/

set_option maxRecDepth 100000

namespace WeatherAnalysis

/-! ### Fetch stage: `src/data/get_data.py` -/

/-- One observation record inside a payload's `data` list.  The fetch stage
inspects only the `time` field (`response['daily']['data'][0]['time']`,
epoch seconds); records lacking `time` are not representable here (that
path would raise an uncaught-by-design `KeyError` like a missing `daily`). -/
structure DataRec where
  time : Int
  deriving DecidableEq, Repr

/-- Value of a payload's `daily` key: `{"data": [...]}`. -/
structure DailyBlock where
  data : List DataRec
  deriving DecidableEq, Repr

/-- A truthy JSON payload returned by `get_weather`, as consumed by `main`
in `get_data.py`: the `daily` sub-key (absent models the `KeyError` path)
and the rest of the document, of which only `timezone` is ever read by the
later consolidation stage.  The payload is cached verbatim. -/
structure Payload where
  daily : Option DailyBlock
  timezone : String
  deriving DecidableEq, Repr

/-- Mutable state of one fetch run in `main` of `get_data.py`: the on-disk
cache (the `{doy}.json` files, indexed by day-of-year), the number of
network calls made so far (`get_weather` invocations), and the day-mismatch
warnings logged so far as pairs (requested doy, response doy). -/
structure FetchState where
  cache : Nat → Option Payload
  netCalls : Nat
  warnings : List (Nat × Nat)

/-- Result of the loop body of `main` for one day. -/
inductive StepResult where
  | next (s : FetchState)
  | abortRun (s : FetchState)
  | exitProcess (code : Nat) (s : FetchState)
  | crash (s : FetchState)

/-- State carried by a step result. -/
def StepResult.state : StepResult → FetchState
  | .next s => s
  | .abortRun s => s
  | .exitProcess _ s => s
  | .crash s => s

/-- Loop body of `main` in `get_data.py` for one day of year `doy`.
`remote` models `get_weather` (`none` is the falsy-response failure path);
`doyOf` models `date.fromtimestamp(t).timetuple().tm_yday`, which depends
on the host's local timezone and is therefore a parameter of the embedding.
The branches follow the source in order: the `os.path.exists` skip, the
falsy-response `return`, the `KeyError` → `sys.exit(0)` on a missing
`daily` key, the uncaught `IndexError` on an empty `data` list, the
day-of-year assertion whose `AssertionError` is caught and logged as a
warning, and finally the `json.dump` write to the requested day's path. -/
def stepDay (remote : Nat → Option Payload) (doyOf : Int → Nat)
    (s : FetchState) (doy : Nat) : StepResult :=
  match s.cache doy with
  | some _ => .next s
  | none =>
    let s1 : FetchState := { s with netCalls := s.netCalls + 1 }
    match remote doy with
    | none => .abortRun s1
    | some p =>
      match p.daily with
      | none => .exitProcess 0 s1
      | some db =>
        match db.data with
        | [] => .crash s1
        | r :: _ =>
          let respDoy := doyOf r.time
          let s2 : FetchState :=
            if respDoy = doy then s1
            else { s1 with warnings := s1.warnings ++ [(doy, respDoy)] }
          .next { s2 with cache := fun d => if d = doy then some p else s2.cache d }

/-- Outcome of a whole fetch run. -/
inductive RunResult where
  | completed (s : FetchState)
  | aborted (s : FetchState)
  | exited (code : Nat) (s : FetchState)
  | crashed (s : FetchState)

/-- Final state carried by a run outcome. -/
def RunResult.state : RunResult → FetchState
  | .completed s => s
  | .aborted s => s
  | .exited _ s => s
  | .crashed s => s

/-- The per-day loop of `main` over the listed days of the year. -/
def runFetch (remote : Nat → Option Payload) (doyOf : Int → Nat) :
    FetchState → List Nat → RunResult
  | s, [] => .completed s
  | s, d :: ds =>
    match stepDay remote doyOf s d with
    | .next s1 => runFetch remote doyOf s1 ds
    | .abortRun s1 => .aborted s1
    | .exitProcess c s1 => .exited c s1
    | .crash s1 => .crashed s1

/-- Gregorian leap-year rule, as realised by
`pd.date_range(date(year, 1, 1), date(year, 12, 31))`. -/
def isLeapYear (y : Nat) : Bool :=
  y % 4 = 0 && (y % 100 != 0 || y % 400 = 0)

/-- Number of calendar days the fetch loop enumerates for a year. -/
def daysInYear (y : Nat) : Nat := if isLeapYear y then 366 else 365

/-- Day-of-year values (`tm_yday`) of the enumerated dates, in order. -/
def doyList (y : Nat) : List Nat := (List.range (daysInYear y)).map (· + 1)

/-- One full fetch run for a (location, year): `main` of `get_data.py`
starting from an existing cache state. -/
def fetchRun (remote : Nat → Option Payload) (doyOf : Int → Nat)
    (cache : Nat → Option Payload) (y : Nat) : RunResult :=
  runFetch remote doyOf ⟨cache, 0, []⟩ (doyList y)

/-! #### Loop lemmas for the fetch stage -/

theorem stepDay_cache_preserved (remote : Nat → Option Payload)
    (doyOf : Int → Nat) (s : FetchState) (doy d : Nat)
    (h : (s.cache d).isSome) :
    ((stepDay remote doyOf s doy).state).cache d = s.cache d := by
  cases hc : s.cache doy with
  | some p => simp [stepDay, hc, StepResult.state]
  | none =>
    cases hr : remote doy with
    | none => simp [stepDay, hc, hr, StepResult.state]
    | some p =>
      cases hd : p.daily with
      | none => simp [stepDay, hc, hr, hd, StepResult.state]
      | some db =>
        cases hdata : db.data with
        | nil => simp [stepDay, hc, hr, hd, hdata, StepResult.state]
        | cons r tl =>
          have hne : d ≠ doy := by
            intro he; rw [he, hc] at h; simp at h
          by_cases hdoy : doyOf r.time = doy <;>
            simp [stepDay, hc, hr, hd, hdata, StepResult.state, hdoy, hne]

theorem stepDay_warnings_mono (remote : Nat → Option Payload)
    (doyOf : Int → Nat) (s : FetchState) (doy : Nat) (w : Nat × Nat)
    (h : w ∈ s.warnings) :
    w ∈ ((stepDay remote doyOf s doy).state).warnings := by
  cases hc : s.cache doy with
  | some p => simpa [stepDay, hc] using h
  | none =>
    cases hr : remote doy with
    | none => simpa [stepDay, hc, hr, StepResult.state] using h
    | some p =>
      cases hd : p.daily with
      | none => simpa [stepDay, hc, hr, hd, StepResult.state] using h
      | some db =>
        cases hdata : db.data with
        | nil => simpa [stepDay, hc, hr, hd, hdata, StepResult.state] using h
        | cons r tl =>
          by_cases hdoy : doyOf r.time = doy <;>
            simp [stepDay, hc, hr, hd, hdata, StepResult.state, hdoy,
              List.mem_append, h]

theorem runFetch_cache_preserved (remote : Nat → Option Payload)
    (doyOf : Int → Nat) (days : List Nat) (s : FetchState) (d : Nat)
    (h : (s.cache d).isSome) :
    ((runFetch remote doyOf s days).state).cache d = s.cache d := by
  induction days generalizing s with
  | nil => rfl
  | cons a as ih =>
    have hstep := stepDay_cache_preserved remote doyOf s a d h
    cases hs : stepDay remote doyOf s a with
    | next s1 =>
      rw [hs] at hstep
      have h1 : (s1.cache d).isSome := by
        simp only [StepResult.state] at hstep
        rw [hstep]; exact h
      have hrec := ih s1 h1
      simp only [runFetch, hs]
      simp only [StepResult.state] at hstep
      rw [hrec, hstep]
    | abortRun s1 =>
      rw [hs] at hstep
      simpa [runFetch, hs, StepResult.state, RunResult.state] using hstep
    | exitProcess c s1 =>
      rw [hs] at hstep
      simpa [runFetch, hs, StepResult.state, RunResult.state] using hstep
    | crash s1 =>
      rw [hs] at hstep
      simpa [runFetch, hs, StepResult.state, RunResult.state] using hstep

theorem runFetch_warnings_mono (remote : Nat → Option Payload)
    (doyOf : Int → Nat) (days : List Nat) (s : FetchState) (w : Nat × Nat)
    (h : w ∈ s.warnings) :
    w ∈ ((runFetch remote doyOf s days).state).warnings := by
  induction days generalizing s with
  | nil => exact h
  | cons a as ih =>
    have hstep := stepDay_warnings_mono remote doyOf s a w h
    cases hs : stepDay remote doyOf s a with
    | next s1 =>
      rw [hs] at hstep
      simp only [StepResult.state] at hstep
      simp only [runFetch, hs]
      exact ih s1 hstep
    | abortRun s1 =>
      rw [hs] at hstep
      simpa [runFetch, hs, StepResult.state, RunResult.state] using hstep
    | exitProcess c s1 =>
      rw [hs] at hstep
      simpa [runFetch, hs, StepResult.state, RunResult.state] using hstep
    | crash s1 =>
      rw [hs] at hstep
      simpa [runFetch, hs, StepResult.state, RunResult.state] using hstep

theorem stepDay_cached_skip (remote : Nat → Option Payload)
    (doyOf : Int → Nat) (s : FetchState) (doy : Nat)
    (h : (s.cache doy).isSome) :
    stepDay remote doyOf s doy = .next s := by
  cases hc : s.cache doy with
  | some p => simp [stepDay, hc]
  | none => rw [hc] at h; simp at h

theorem runFetch_all_cached (remote : Nat → Option Payload)
    (doyOf : Int → Nat) (days : List Nat) (s : FetchState)
    (h : ∀ d ∈ days, (s.cache d).isSome) :
    runFetch remote doyOf s days = .completed s := by
  induction days with
  | nil => rfl
  | cons a as ih =>
    have hskip := stepDay_cached_skip remote doyOf s a (h a (by simp))
    simp only [runFetch, hskip]
    exact ih fun d hd => h d (by simp [hd])

theorem runFetch_append_cached (remote : Nat → Option Payload)
    (doyOf : Int → Nat) (l1 l2 : List Nat) (s : FetchState)
    (h : ∀ d ∈ l1, (s.cache d).isSome) :
    runFetch remote doyOf s (l1 ++ l2) = runFetch remote doyOf s l2 := by
  induction l1 with
  | nil => rfl
  | cons a as ih =>
    have hskip := stepDay_cached_skip remote doyOf s a (h a (by simp))
    show runFetch remote doyOf s (a :: (as ++ l2)) = _
    simp only [runFetch, hskip]
    exact ih fun d hd => h d (by simp [hd])

/-! #### Concrete inputs used by the fetch-stage witnesses -/

/-- Payload whose first record carries epoch 1546300800 (2019-01-01 UTC). -/
def pEx : Payload := ⟨some ⟨[⟨1546300800⟩]⟩, "Europe/Lisbon"⟩

/-- Payload lacking the `daily` key. -/
def payloadNoDaily : Payload := ⟨none, "UTC"⟩

/-- Payload used for the day-mismatch scenario. -/
def pMis : Payload := ⟨some ⟨[⟨5097600⟩]⟩, "UTC"⟩

/-- Remote oracle that always returns the failure sentinel. -/
def remoteNone : Nat → Option Payload := fun _ => none

/-- Remote oracle that always returns a payload lacking `daily`. -/
def remoteNoDaily : Nat → Option Payload := fun _ => some payloadNoDaily

/-- Remote oracle that always returns the mismatch payload. -/
def remoteMis : Nat → Option Payload := fun _ => some pMis

/-- Trivial day-of-year extraction. -/
def doyOfTriv : Int → Nat := fun _ => 1

/-- Day-of-year extraction that always reports day 60. -/
def doyOf60 : Int → Nat := fun _ => 60

/-- Cache holding all 365 days of a non-leap year. -/
def cacheFull : Nat → Option Payload :=
  fun d => if 1 ≤ d ∧ d ≤ 365 then some pEx else none

/-- Cache holding day 1 only. -/
def cacheOne : Nat → Option Payload := fun d => if d = 1 then some pEx else none

/-- Empty cache. -/
def cacheEmpty : Nat → Option Payload := fun _ => none

/-- Cache holding days 1..58. -/
def cache58 : Nat → Option Payload :=
  fun d => if 1 ≤ d ∧ d ≤ 58 then some pEx else none

/-- Days 3..365. -/
def restDays : List Nat := (List.range 363).map (· + 3)

/-- Days 2..365. -/
def restDays2 : List Nat := (List.range 364).map (· + 2)

/-- Days 1..58. -/
def doneDays58 : List Nat := (List.range 58).map (· + 1)

/-- Days 60..365. -/
def restDays59 : List Nat := (List.range 306).map (· + 60)

/-! #### Claim theorems for the fetch stage -/

/-- C2: fetch is idempotent.  Every day whose cache file already exists is
left with its original payload after the run (the skip branch neither
calls the network nor overwrites), and a run over a fully cached year
completes with zero network calls and exactly the initial cache. -/
theorem fetch_idempotent (remote : Nat → Option Payload) (doyOf : Int → Nat)
    (cache : Nat → Option Payload) (y : Nat) :
    (∀ d, (cache d).isSome →
      ((fetchRun remote doyOf cache y).state).cache d = cache d) ∧
    ((∀ d ∈ doyList y, (cache d).isSome) →
      fetchRun remote doyOf cache y = .completed ⟨cache, 0, []⟩) := by
  constructor
  · intro d hd
    exact runFetch_cache_preserved remote doyOf (doyList y) ⟨cache, 0, []⟩ d hd
  · intro hall
    exact runFetch_all_cached remote doyOf (doyList y) ⟨cache, 0, []⟩ hall

/-- C2 witness: a fully cached 2019 run with a dead remote makes zero
network calls and leaves the cache untouched. -/
theorem fetch_idempotent_witness :
    (∀ d, (cacheFull d).isSome →
      ((fetchRun remoteNone doyOfTriv cacheFull 2019).state).cache d = cacheFull d) ∧
    fetchRun remoteNone doyOfTriv cacheFull 2019 = .completed ⟨cacheFull, 0, []⟩ :=
  ⟨(fetch_idempotent remoteNone doyOfTriv cacheFull 2019).1,
   (fetch_idempotent remoteNone doyOfTriv cacheFull 2019).2 (by decide)⟩

/-- C3: fetch is resumable and atomic on remote failure.  If the listed
days split as cached prefix, then a day with no cache file for which the
remote returns the failure sentinel, the run aborts right there: exactly
one network call was made, nothing was written, and the final cache is
the initial one (so every previously cached day is present, unmodified). -/
theorem fetch_abort_on_failure (remote : Nat → Option Payload)
    (doyOf : Int → Nat) (cache : Nat → Option Payload) (y : Nat)
    (done : List Nat) (dfail : Nat) (rest : List Nat)
    (hsplit : doyList y = done ++ dfail :: rest)
    (hdone : ∀ d ∈ done, (cache d).isSome)
    (hfail : cache dfail = none)
    (hremote : remote dfail = none) :
    fetchRun remote doyOf cache y = .aborted ⟨cache, 1, []⟩ := by
  unfold fetchRun
  rw [hsplit,
    runFetch_append_cached remote doyOf done (dfail :: rest) ⟨cache, 0, []⟩ hdone]
  simp [runFetch, stepDay, hfail, hremote]

/-- C3 witness: day 1 of 2019 cached, remote failing on day 2: the run
aborts with one network call and the initial cache. -/
theorem fetch_abort_on_failure_witness :
    fetchRun remoteNone doyOfTriv cacheOne 2019 = .aborted ⟨cacheOne, 1, []⟩ :=
  fetch_abort_on_failure remoteNone doyOfTriv cacheOne 2019 [1] 2 restDays
    (by decide) (by decide) (by decide) rfl

/-- C4 counterexample: a payload lacking the `daily` key makes the process
terminate through `sys.exit(0)` — exit status ZERO, not non-zero as
claimed — though indeed before writing any cache file for that day. -/
theorem fetch_missing_daily_exit_code_zero :
    fetchRun remoteNoDaily doyOfTriv cacheEmpty 2019 =
      .exited 0 ⟨cacheEmpty, 1, []⟩ := by
  rfl

/-- C4 amended: a fetched payload lacking the `daily` sub-key terminates
the whole process with exit status zero (`sys.exit(0)`), before writing
any cache file for that day: the final cache is the initial one. -/
theorem fetch_missing_daily_exits (remote : Nat → Option Payload)
    (doyOf : Int → Nat) (cache : Nat → Option Payload) (y : Nat)
    (done : List Nat) (d : Nat) (rest : List Nat) (p : Payload)
    (hsplit : doyList y = done ++ d :: rest)
    (hdone : ∀ e ∈ done, (cache e).isSome)
    (hd : cache d = none)
    (hremote : remote d = some p)
    (hdaily : p.daily = none) :
    fetchRun remote doyOf cache y = .exited 0 ⟨cache, 1, []⟩ := by
  unfold fetchRun
  rw [hsplit,
    runFetch_append_cached remote doyOf done (d :: rest) ⟨cache, 0, []⟩ hdone]
  simp [runFetch, stepDay, hd, hremote, hdaily]

/-- C4 amended witness: empty cache, remote answering day 1 of 2019 with a
payload lacking `daily`: the process exits with status 0 and no file. -/
theorem fetch_missing_daily_exits_witness :
    fetchRun remoteNoDaily doyOfTriv cacheEmpty 2019 =
      .exited 0 ⟨cacheEmpty, 1, []⟩ :=
  fetch_missing_daily_exits remoteNoDaily doyOfTriv cacheEmpty 2019 [] 1
    restDays2 payloadNoDaily (by decide) (by decide) (by decide) rfl rfl

/-- C6: a day-of-year mismatch is non-fatal.  When the response's first
record implies a day-of-year different from the requested one, the run
logs the mismatch warning and still persists the payload under the
originally requested day's cache key, and both facts survive to the end
of the run. -/
theorem fetch_mismatch_still_writes (remote : Nat → Option Payload)
    (doyOf : Int → Nat) (cache : Nat → Option Payload) (y : Nat)
    (done : List Nat) (d : Nat) (rest : List Nat) (p : Payload)
    (db : DailyBlock) (r : DataRec) (tl : List DataRec)
    (hsplit : doyList y = done ++ d :: rest)
    (hdone : ∀ e ∈ done, (cache e).isSome)
    (hd : cache d = none)
    (hremote : remote d = some p)
    (hdaily : p.daily = some db)
    (hdata : db.data = r :: tl)
    (hmis : doyOf r.time ≠ d) :
    ((fetchRun remote doyOf cache y).state).cache d = some p ∧
    (d, doyOf r.time) ∈ ((fetchRun remote doyOf cache y).state).warnings := by
  unfold fetchRun
  rw [hsplit,
    runFetch_append_cached remote doyOf done (d :: rest) ⟨cache, 0, []⟩ hdone]
  have hstep : stepDay remote doyOf ⟨cache, 0, []⟩ d =
      .next ⟨fun e => if e = d then some p else cache e, 1,
        [(d, doyOf r.time)]⟩ := by
    simp [stepDay, hd, hremote, hdaily, hdata, hmis]
  simp only [runFetch, hstep]
  constructor
  · have hpres := runFetch_cache_preserved remote doyOf rest
      ⟨fun e => if e = d then some p else cache e, 1, [(d, doyOf r.time)]⟩ d
      (by simp)
    simpa using hpres
  · exact runFetch_warnings_mono remote doyOf rest
      ⟨fun e => if e = d then some p else cache e, 1, [(d, doyOf r.time)]⟩
      (d, doyOf r.time) (by simp)

/-- C6 witness: days 1..58 of 2019 cached, day 59 requested, response
implying day 60: the payload is written at the requested key 59 and the
mismatch warning (59, 60) is logged. -/
theorem fetch_mismatch_still_writes_witness :
    ((fetchRun remoteMis doyOf60 cache58 2019).state).cache 59 = some pMis ∧
    (59, 60) ∈ ((fetchRun remoteMis doyOf60 cache58 2019).state).warnings :=
  fetch_mismatch_still_writes remoteMis doyOf60 cache58 2019 doneDays58 59
    restDays59 pMis ⟨[⟨5097600⟩]⟩ ⟨5097600⟩ [] (by decide) (by decide)
    (by decide) rfl rfl rfl (by decide)

/-! ### Consolidation stage: `src/data/make_interim.py`

A pandas DataFrame is embedded as a list of rows; one row is an
association list from column name to cell value.  `pd_json.json_normalize`
over a day file's `data` list yields one flattened row per record, so a
cached day file contributes its record rows verbatim. -/

/-- Cell value in the consolidated frame: either a raw numeric (epoch
seconds before conversion, or a non-time column), or a timezone-aware
datetime produced by `to_datetime(..).dt.tz_localize('UTC').dt.tz_convert(tz)`,
carrying the epoch instant and the target timezone. -/
inductive Value where
  | num (n : Int)
  | dt (epoch : Int) (tz : String)
  deriving DecidableEq, Repr

/-- Raw flattened row, as produced by `json_normalize` on one record. -/
abbrev RawRow := List (String × Int)

/-- Row after the datetime conversion pass of `get_datetime`. -/
abbrev ConvRow := List (String × Value)

/-- One cached day file as read by `get_observations`: its `json_obs[key]['data']`
list, flattened into rows, and its top-level `timezone` field. -/
structure ObsFile where
  data : List RawRow
  timezone : String
  deriving DecidableEq, Repr

/-- `get_observations` of `make_interim.py`: reads the year's files in
listing order, concatenates their `data` rows, and returns the timezone
read from `json_obs` AFTER the loop — i.e. from the LAST file of the
listing.  An empty listing is `none` (`pd.concat([])` raises and
`json_obs` is unbound). -/
def get_observations (files : List ObsFile) : Option (List RawRow × String) :=
  match files.getLast? with
  | none => none
  | some last => some ((files.map (fun f => f.data)).flatten, last.timezone)

/-- Fullmatch semantics of the pattern `(.+|)[tT]ime` used by
`get_datetime` (`re.fullmatch`): an optional nonempty prefix of
non-newline characters (`.` does not cross newlines) followed by the
literal `time` or `Time`.  Only the leading letter is case-insensitive.
Implemented over the character list so that it evaluates inside the
kernel. -/
def matchesTimeRegex (s : String) : Bool :=
  (decide (s.data.drop (s.data.length - 4) = ['t', 'i', 'm', 'e']) ||
   decide (s.data.drop (s.data.length - 4) = ['T', 'i', 'm', 'e'])) &&
  (s.data.take (s.data.length - 4)).all (fun c => decide (c ≠ '\n'))

/-- ASCII lowercasing of one character, as `str.lower()` acts on column
names. -/
def lowerChar (c : Char) : Char :=
  if 65 ≤ c.toNat && c.toNat ≤ 90 then Char.ofNat (c.toNat + 32) else c

/-- Modelled from the spec sentence of C7 (refinement target only): a
column counts as a time column when its name ends in "time" under
case-insensitive comparison. -/
def specTimeColumn (s : String) : Bool :=
  decide ((s.data.map lowerChar).drop (s.data.length - 4) = ['t', 'i', 'm', 'e'])

/-- Column-accumulation step: append the keys of one row that are not
yet present. -/
def colStep (acc : List String) (r : RawRow) : List String :=
  acc ++ (r.map (fun p => p.1)).filter (fun c => decide (c ∉ acc))

/-- Column set of the concatenated frame: union of the rows' keys in
first-appearance order (pandas column union on concat). -/
def columnsOf (rows : List RawRow) : List String :=
  rows.foldl colStep []

/-- Time-like columns selected by `get_datetime`. -/
def timeColumnsOf (rows : List RawRow) : List String :=
  (columnsOf rows).filter matchesTimeRegex

/-- Per-row effect of the conversion loop of `get_datetime`: every cell
of a selected time column becomes a timezone-aware datetime for its epoch
value; all other cells keep their numeric value. -/
def convertRow (tz : String) (tcols : List String) (r : RawRow) : ConvRow :=
  r.map (fun p => (p.1, if p.1 ∈ tcols then Value.dt p.2 tz else Value.num p.2))

/-- Index value of a converted row after `set_index('time')`: tz-aware
datetimes compare by their UTC instant, i.e. by the epoch value. -/
def timeKey (r : ConvRow) : Int :=
  match r.find? (fun p => p.1 = "time") with
  | some (_, .dt e _) => e
  | some (_, .num n) => n
  | none => 0

/-- Comparison used by `sort_index` on the converted rows. -/
def timeLe (a b : ConvRow) : Prop := timeKey a ≤ timeKey b

instance : DecidableRel timeLe :=
  fun a b => inferInstanceAs (Decidable (timeKey a ≤ timeKey b))

instance : IsTotal ConvRow timeLe := ⟨fun _ _ => Int.le_total _ _⟩

instance : IsTrans ConvRow timeLe := ⟨fun _ _ _ hab hbc => Int.le_trans hab hbc⟩

/-- `get_datetime` of `make_interim.py`: converts every time-like column,
sets the `time` column as the index and sorts ascending by it.
`set_index('time')` raises a `KeyError` when no `time` column exists; a
row aligned without a `time` value would index as `NaT`, which this model
excludes, so success requires every row to carry `time`. -/
def get_datetime (rows : List RawRow) (tz : String) : Option (List ConvRow) :=
  let conv := rows.map (convertRow tz (timeColumnsOf rows))
  if conv.all (fun r => (r.find? (fun p => p.1 = "time")).isSome) then
    some (conv.insertionSort timeLe)
  else none

/-- Year loop of `main` in `make_interim.py` for one location, with the
loop state explicit: the accumulated frame and the current binding of
`time_zone` (which is rebound by every `get_observations` call).  `none`
models the run-stopping exceptions. -/
def gatherYearsAux (acc : List RawRow) (tzAcc : Option String) :
    List (List ObsFile) → Option (List RawRow × Option String)
  | [] => some (acc, tzAcc)
  | y :: ys =>
    match get_observations y with
    | none => none
    | some (rows, tz) => gatherYearsAux (acc ++ rows) (some tz) ys

/-- Year loop of `main` started from the empty frame with `time_zone`
unbound. -/
def gatherYears (years : List (List ObsFile)) :
    Option (List RawRow × Option String) :=
  gatherYearsAux [] none years

/-- Timezone of the last file of the last year directory. -/
def lastTimezone (years : List (List ObsFile)) : Option String :=
  (years.getLast?).bind (fun y => (y.getLast?).map (fun f => f.timezone))

/-- `main` of `make_interim.py` for one location, from the ordered year
directory contents to the consolidated frame: accumulate all years, then
`get_datetime` with the final `time_zone` binding (`none` when `years` is
empty: `time_zone` was never bound). -/
def consolidate (years : List (List ObsFile)) : Option (List ConvRow) :=
  match gatherYears years with
  | none => none
  | some (_, none) => none
  | some (rows, some tz) => get_datetime rows tz

/-! #### Helper lemmas for the consolidation stage -/

theorem get_datetime_some (rows : List RawRow) (tz : String)
    (out : List ConvRow) (h : get_datetime rows tz = some out) :
    out = (rows.map (convertRow tz (timeColumnsOf rows))).insertionSort timeLe := by
  simp only [get_datetime] at h
  split at h
  · exact (Option.some.inj h).symm
  · exact absurd h (by simp)

theorem get_observations_some (files : List ObsFile) (rows : List RawRow)
    (tz : String) (h : get_observations files = some (rows, tz)) :
    rows = (files.map (fun f => f.data)).flatten ∧
    (files.getLast?).map (fun f => f.timezone) = some tz := by
  unfold get_observations at h
  cases hl : files.getLast? with
  | none => rw [hl] at h; exact absurd h (by simp)
  | some last =>
    rw [hl] at h
    simp only [Option.some.injEq, Prod.mk.injEq] at h
    exact ⟨h.1.symm, by simp [h.2]⟩

theorem gatherYearsAux_rows (years : List (List ObsFile)) :
    ∀ (acc : List RawRow) (tzAcc : Option String) (rows : List RawRow)
      (tzo : Option String),
      gatherYearsAux acc tzAcc years = some (rows, tzo) →
      rows = acc ++ (years.map (fun y => (y.map (fun f => f.data)).flatten)).flatten := by
  induction years with
  | nil =>
    intro acc tzAcc rows tzo h
    simp only [gatherYearsAux, Option.some.injEq, Prod.mk.injEq] at h
    simp [← h.1]
  | cons y ys ih =>
    intro acc tzAcc rows tzo h
    simp only [gatherYearsAux] at h
    cases hy : get_observations y with
    | none => rw [hy] at h; exact absurd h (by simp)
    | some pr =>
      obtain ⟨rows1, tz1⟩ := pr
      rw [hy] at h
      have hr := ih (acc ++ rows1) (some tz1) rows tzo h
      rw [hr, (get_observations_some y rows1 tz1 hy).1]
      simp [List.append_assoc]

theorem gatherYearsAux_tz (years : List (List ObsFile)) :
    ∀ (acc : List RawRow) (tzAcc : Option String) (rows : List RawRow)
      (tzo : Option String),
      gatherYearsAux acc tzAcc years = some (rows, tzo) →
      (years = [] ∧ tzo = tzAcc) ∨ (years ≠ [] ∧ tzo = lastTimezone years) := by
  induction years with
  | nil =>
    intro acc tzAcc rows tzo h
    simp only [gatherYearsAux, Option.some.injEq, Prod.mk.injEq] at h
    exact Or.inl ⟨rfl, h.2.symm⟩
  | cons y ys ih =>
    intro acc tzAcc rows tzo h
    simp only [gatherYearsAux] at h
    cases hy : get_observations y with
    | none => rw [hy] at h; exact absurd h (by simp)
    | some pr =>
      obtain ⟨rows1, tz1⟩ := pr
      rw [hy] at h
      have htz1 := (get_observations_some y rows1 tz1 hy).2
      refine Or.inr ⟨by simp, ?_⟩
      rcases ih (acc ++ rows1) (some tz1) rows tzo h with ⟨hnil, htzo⟩ | ⟨hne, htzo⟩
      · subst hnil
        rw [htzo]
        simp only [lastTimezone, List.getLast?_singleton]
        exact htz1.symm
      · cases hys : ys with
        | nil => exact absurd hys hne
        | cons z zs =>
          rw [htzo, hys]
          simp [lastTimezone]

/-! ### Older consolidation stage: `src/data/make_csv.py` -/

/-- Index value of a raw row after make_csv's `set_index('time')`. -/
def rawTimeKey (r : RawRow) : Int :=
  match r.find? (fun p => p.1 = "time") with
  | some p => p.2
  | none => 0

/-- Comparison used by make_csv's per-year `sort_index`. -/
def rawTimeLe (a b : RawRow) : Prop := rawTimeKey a ≤ rawTimeKey b

instance : DecidableRel rawTimeLe :=
  fun a b => inferInstanceAs (Decidable (rawTimeKey a ≤ rawTimeKey b))

namespace MakeCsv

/-- `get_observations` of `make_csv.py`: concatenates the year's files'
rows, sets `time` as the index and sorts — WITHIN this single year. -/
def get_observations (files : List ObsFile) : Option (List RawRow) :=
  match files.getLast? with
  | none => none
  | some _ =>
    let rows := (files.map (fun f => f.data)).flatten
    if rows.all (fun r => (r.find? (fun p => p.1 = "time")).isSome) then
      some (rows.insertionSort rawTimeLe)
    else none

/-- Per-location loop of `main` in `make_csv.py`: year directories in the
unsorted glob listing order (`years` here is NOT sorted by the source);
each year's sorted block is appended to the accumulated frame; there is
no sort after the loop, and the frame is written to CSV as is. -/
def consolidateCsv : List (List ObsFile) → Option (List RawRow)
  | [] => some []
  | y :: ys =>
    match get_observations y with
    | none => none
    | some rows =>
      match consolidateCsv ys with
      | none => none
      | some rest => some (rows ++ rest)

end MakeCsv

/-! ### Year-directory discovery in `main` of `make_interim.py` -/

/-- Search semantics of `re.compile(r'(.+\d+)').search` over one string:
some position holds a decimal digit immediately preceded by a non-newline
character (`.+` needs at least one character and `.` does not match a
newline; `\d` is modelled as an ASCII decimal digit). -/
def hasCharDigitPair : List Char → Bool
  | a :: b :: rest => (decide (a ≠ '\n') && b.isDigit) || hasCharDigitPair (b :: rest)
  | _ => false

/-- The `year_regex.search` filter applied to one glob path. -/
def yearRegexSearch (s : String) : Bool := hasCharDigitPair s.toList

/-- Modelled from the spec sentence of C8 (refinement target only): a
directory NAME containing at least one digit. -/
def specYearLike (name : String) : Bool := name.toList.any Char.isDigit

/-- Year discovery in `main` of `make_interim.py`: glob yields joined
paths (location path, separator, entry name), the regex filter runs on
those full paths, and `sorted` orders them as strings. -/
def discoverYears (locPath : String) (entries : List String) : List String :=
  ((entries.map (fun n => locPath ++ "/" ++ n)).filter yearRegexSearch).insertionSort
    (fun a b => a ≤ b)

instance : DecidableRel (fun a b : String => a ≤ b) :=
  fun a b => inferInstanceAs (Decidable (a ≤ b))

/-! ### Cache write, lines 97-99 of `get_data.py` -/

/-- Contents of the final cache path over time while
`with open(obs_fn, 'w') as fp: json.dump(response, fp)` runs:
`open(.., 'w')` immediately creates (or truncates to) an empty file AT
THE FINAL PATH, and `json.dump` then streams the serialization into it.
State k is the file content after k characters have been flushed;
`os.path.exists` observes `Option.isSome`.  The source uses no temporary
file and no atomic rename. -/
def jsonWriteStates (payload : List Char) : List (Option (List Char)) :=
  (List.range (payload.length + 1)).map (fun k => some (payload.take k))

/-! #### Helper lemmas: regex search, column accumulation, data congruence -/

theorem hasCharDigitPair_append (u v : List Char)
    (h : hasCharDigitPair u = true) : hasCharDigitPair (u ++ v) = true := by
  induction u with
  | nil => simp [hasCharDigitPair] at h
  | cons a rest ih =>
    cases rest with
    | nil => simp [hasCharDigitPair] at h
    | cons b rest2 =>
      simp only [hasCharDigitPair, Bool.or_eq_true] at h
      rcases h with h1 | h2
      · simp only [List.cons_append, hasCharDigitPair, Bool.or_eq_true]
        exact Or.inl h1
      · have hext := ih h2
        simp only [List.cons_append] at hext ⊢
        simp only [hasCharDigitPair, Bool.or_eq_true]
        exact Or.inr hext

theorem yearRegexSearch_append (s t : String)
    (h : yearRegexSearch s = true) : yearRegexSearch (s ++ t) = true := by
  unfold yearRegexSearch at h ⊢
  rw [show (s ++ t).toList = s.toList ++ t.toList by simp]
  exact hasCharDigitPair_append _ _ h

theorem foldl_colStep_sub (rows : List RawRow) :
    ∀ acc : List String, acc ⊆ rows.foldl colStep acc := by
  induction rows with
  | nil => intro acc x hx; exact hx
  | cons r rs ih =>
    intro acc x hx
    exact ih (colStep acc r) (List.mem_append_left _ hx)

theorem mem_foldl_colStep (rows : List RawRow) :
    ∀ (acc : List String) (r : RawRow), r ∈ rows →
      ∀ c ∈ r.map (fun p => p.1), c ∈ rows.foldl colStep acc := by
  induction rows with
  | nil => intro _ r hr; exact absurd hr (by simp)
  | cons r0 rs ih =>
    intro acc r hr c hc
    simp only [List.foldl_cons]
    rcases List.mem_cons.mp hr with heq | hmem
    · subst heq
      refine foldl_colStep_sub rs (colStep acc r) ?_
      by_cases hac : c ∈ acc
      · exact List.mem_append_left _ hac
      · exact List.mem_append_right _
          (List.mem_filter.mpr ⟨hc, by simpa using hac⟩)
    · exact ih (colStep acc r0) r hmem c hc

theorem mem_timeColumnsOf (rows : List RawRow) (r : RawRow) (hr : r ∈ rows)
    (c : String) (hc : c ∈ r.map (fun p => p.1)) :
    c ∈ timeColumnsOf rows ↔ matchesTimeRegex c = true := by
  unfold timeColumnsOf columnsOf
  rw [List.mem_filter]
  exact ⟨fun h => h.2, fun hm => ⟨mem_foldl_colStep rows [] r hr c hc, hm⟩⟩

theorem gatherYearsAux_congr (years1 : List (List ObsFile)) :
    ∀ (years2 : List (List ObsFile)),
      years1.map (List.map ObsFile.data) = years2.map (List.map ObsFile.data) →
      ∀ (acc : List RawRow) (tzAcc1 tzAcc2 : Option String),
        (gatherYearsAux acc tzAcc1 years1 = none ∧
          gatherYearsAux acc tzAcc2 years2 = none) ∨
        (∃ rows tzo1 tzo2,
          gatherYearsAux acc tzAcc1 years1 = some (rows, tzo1) ∧
          gatherYearsAux acc tzAcc2 years2 = some (rows, tzo2)) := by
  induction years1 with
  | nil =>
    intro years2 hdata acc tzAcc1 tzAcc2
    have h2 : years2 = [] := by
      cases years2 with
      | nil => rfl
      | cons z zs => simp at hdata
    subst h2
    exact Or.inr ⟨acc, tzAcc1, tzAcc2, rfl, rfl⟩
  | cons y1 ys1 ih =>
    intro years2 hdata acc tzAcc1 tzAcc2
    cases years2 with
    | nil => simp at hdata
    | cons y2 ys2 =>
      simp only [List.map_cons, List.cons.injEq] at hdata
      obtain ⟨hhead, htail⟩ := hdata
      simp only [gatherYearsAux]
      cases hl1 : y1.getLast? with
      | none =>
        have hy1 : y1 = [] := List.getLast?_eq_none_iff.mp hl1
        have hy2 : y2 = [] := by
          subst hy1
          cases y2 with
          | nil => rfl
          | cons f fs => simp at hhead
        subst hy1; subst hy2
        exact Or.inl ⟨by simp [get_observations], by simp [get_observations]⟩
      | some last1 =>
        have hy1ne : y1 ≠ [] := by
          intro he; rw [he] at hl1; simp at hl1
        have hy2ne : y2 ≠ [] := by
          intro he
          rw [he] at hhead
          simp only [List.map_nil] at hhead
          exact hy1ne (by simpa using hhead)
        obtain ⟨last2, hl2⟩ := Option.isSome_iff_exists.mp
          (by rw [List.getLast?_isSome]; exact hy2ne)
        have hdeq : (y1.map (fun f => f.data)).flatten =
            (y2.map (fun f => f.data)).flatten := by
          rw [show (y1.map (fun f => f.data)) = y1.map ObsFile.data from rfl,
            show (y2.map (fun f => f.data)) = y2.map ObsFile.data from rfl, hhead]
        rw [show get_observations y1 =
            some ((y1.map (fun f => f.data)).flatten, last1.timezone) by
          simp [get_observations, hl1]]
        rw [show get_observations y2 =
            some ((y2.map (fun f => f.data)).flatten, last2.timezone) by
          simp [get_observations, hl2]]
        rw [← hdeq]
        exact ih ys2 htail (acc ++ (y1.map (fun f => f.data)).flatten)
          (some last1.timezone) (some last2.timezone)

/-! #### Concrete inputs used by the consolidation witnesses -/

/-- Two single-file year directories, later times listed first. -/
def yearsEx : List (List ObsFile) :=
  [[⟨[[("time", 100)]], "Europe/Lisbon"⟩], [⟨[[("time", 50)]], "Europe/Lisbon"⟩]]

/-- Consolidated output of `yearsEx`. -/
def outEx : List ConvRow :=
  [[("time", Value.dt 50 "Europe/Lisbon")], [("time", Value.dt 100 "Europe/Lisbon")]]

/-- One year directory of two files whose timezone fields disagree. -/
def yearsTzA : List (List ObsFile) :=
  [[⟨[[("time", 10)]], "Other/Zone"⟩, ⟨[[("time", 20)]], "Europe/Lisbon"⟩]]

/-- Same as `yearsTzA` with the non-last timezone field changed. -/
def yearsTzB : List (List ObsFile) :=
  [[⟨[[("time", 10)]], "Changed/Zone"⟩, ⟨[[("time", 20)]], "Europe/Lisbon"⟩]]

/-- Consolidated output of both `yearsTzA` and `yearsTzB`. -/
def outTz : List ConvRow :=
  [[("time", Value.dt 10 "Europe/Lisbon")], [("time", Value.dt 20 "Europe/Lisbon")]]

/-- Rows with a column that ends in "time" only case-insensitively. -/
def rowsMixed : List RawRow := [[("time", 3), ("sunriseTime", 7)]]

/-- Converted output of `rowsMixed` under timezone UTC. -/
def outMixed : List ConvRow :=
  [[("time", Value.dt 3 "UTC"), ("sunriseTime", Value.dt 7 "UTC")]]

/-! #### Claim theorems for the consolidation stage -/

/-- C1 counterexample: the make_csv consolidation (which also sets the
`time` index and sorts, but per year) over two cached days in two year
directories listed later-time-first — glob order is arbitrary — produces
the index 100, 50: `index[0] <= index[1]` fails. -/
theorem consolidated_order_counterexample :
    MakeCsv.consolidateCsv
        [[⟨[[("time", 100)]], "UTC"⟩], [⟨[[("time", 50)]], "UTC"⟩]] =
      some [[("time", 100)], [("time", 50)]] ∧
    ¬ rawTimeKey [("time", (100 : Int))] ≤ rawTimeKey [("time", 50)] := by
  decide

/-- C1 amended: every consolidated dataset produced by `make_interim.py`
has a non-decreasing time index — the whole merged frame is sorted by the
index after all years are concatenated.  (`make_csv.py` sorts only inside
each year block and concatenates blocks in raw glob order, so its output
is exempt; see the counterexample.) -/
theorem consolidated_index_sorted (years : List (List ObsFile))
    (out : List ConvRow) (h : consolidate years = some out) :
    List.Sorted (fun a b : Int => a ≤ b) (out.map timeKey) := by
  cases hg : gatherYears years with
  | none => simp [consolidate, hg] at h
  | some pr =>
    obtain ⟨rows, tzo⟩ := pr
    cases tzo with
    | none => simp [consolidate, hg] at h
    | some tz =>
      have hdt : get_datetime rows tz = some out := by
        simpa [consolidate, hg] using h
      rw [get_datetime_some rows tz out hdt]
      have hs := List.sorted_insertionSort timeLe
        (rows.map (convertRow tz (timeColumnsOf rows)))
      exact List.pairwise_map.mpr (hs.imp (fun hab => hab))

/-- C1 amended witness: the two-year example consolidates to the index
50, 100, which is sorted. -/
theorem consolidated_index_sorted_witness :
    List.Sorted (fun a b : Int => a ≤ b) (outEx.map timeKey) :=
  consolidated_index_sorted yearsEx outEx (by decide)

/-- C5: row count conservation and duplicate retention.  The consolidated
frame has exactly one row per entry of each cached file's `data` list,
summed over every file of every processed year directory; concat and sort
drop nothing and deduplicate nothing. -/
theorem consolidated_row_count (years : List (List ObsFile))
    (out : List ConvRow) (h : consolidate years = some out) :
    out.length =
      (years.map (fun y => (y.map (fun f => f.data.length)).sum)).sum := by
  cases hg : gatherYears years with
  | none => simp [consolidate, hg] at h
  | some pr =>
    obtain ⟨rows, tzo⟩ := pr
    cases tzo with
    | none => simp [consolidate, hg] at h
    | some tz =>
      have hdt : get_datetime rows tz = some out := by
        simpa [consolidate, hg] using h
      have hlen1 : out.length = rows.length := by
        rw [get_datetime_some rows tz out hdt,
          (List.perm_insertionSort timeLe _).length_eq, List.length_map]
      have hrows := gatherYearsAux_rows years [] none rows (some tz) hg
      rw [hlen1, hrows]
      simp [List.length_flatten, List.map_map, Function.comp_def]

/-- C5 witness: two cached files with one record each consolidate to two
rows. -/
theorem consolidated_row_count_witness :
    outEx.length =
      (yearsEx.map (fun y => (y.map (fun f => f.data.length)).sum)).sum :=
  consolidated_row_count yearsEx outEx (by decide)

/-- C7 counterexample: the column `eventTIME` ends in "time" under
case-insensitive comparison, so the claimed selection includes it, but
`re.fullmatch("(.+|)[tT]ime")` rejects it (only the leading letter is
case-insensitive) and its cells are left unconverted. -/
theorem time_column_selection_counterexample :
    specTimeColumn "eventTIME" = true ∧
    matchesTimeRegex "eventTIME" = false ∧
    get_datetime [[("time", 3), ("eventTIME", 5)]] "UTC" =
      some [[("time", Value.dt 3 "UTC"), ("eventTIME", Value.num 5)]] := by
  decide

/-- C7 amended: the conversion selects exactly the columns whose name
fully matches `(.+|)[tT]ime` — ending in `time` or `Time`, with no
newline in the (possibly empty) prefix — and rewrites every cell of a
selected column to a datetime carrying its epoch value and the location
timezone, leaving every other cell numeric. -/
theorem time_column_conversion (rows : List RawRow) (tz : String)
    (out : List ConvRow) (h : get_datetime rows tz = some out) :
    out.Perm (rows.map (convertRow tz (timeColumnsOf rows))) ∧
    ∀ r ∈ rows, convertRow tz (timeColumnsOf rows) r =
      r.map (fun p =>
        (p.1, if matchesTimeRegex p.1 then Value.dt p.2 tz
              else Value.num p.2)) := by
  constructor
  · rw [get_datetime_some rows tz out h]
    exact List.perm_insertionSort timeLe _
  · intro r hr
    unfold convertRow
    apply List.map_congr_left
    intro p hp
    have hk : p.1 ∈ r.map (fun q => q.1) := List.mem_map_of_mem _ hp
    by_cases hm : matchesTimeRegex p.1 = true
    · rw [if_pos ((mem_timeColumnsOf rows r hr p.1 hk).mpr hm), if_pos hm]
    · rw [if_neg (fun hin => hm ((mem_timeColumnsOf rows r hr p.1 hk).mp hin)),
        if_neg (fun hb => hm hb)]

/-- C7 amended witness: `time` and `sunriseTime` are both selected and
converted in a concrete frame. -/
theorem time_column_conversion_witness :
    outMixed.Perm (rowsMixed.map (convertRow "UTC" (timeColumnsOf rowsMixed))) ∧
    ∀ r ∈ rowsMixed, convertRow "UTC" (timeColumnsOf rowsMixed) r =
      r.map (fun p =>
        (p.1, if matchesTimeRegex p.1 then Value.dt p.2 "UTC"
              else Value.num p.2)) :=
  time_column_conversion rowsMixed "UTC" outMixed (by decide)

/-- C10: the single timezone used to localize every row of the
consolidated output is the `timezone` field of the last payload file read
from the last year directory: every converted cell carries exactly that
timezone, and rewriting the `timezone` field of any other payload file
(keeping the data and the last file's timezone) leaves the consolidated
output unchanged. -/
theorem consolidate_timezone_last_file (years years2 : List (List ObsFile))
    (out : List ConvRow) (h : consolidate years = some out)
    (hdata : years2.map (List.map ObsFile.data) = years.map (List.map ObsFile.data))
    (htz : lastTimezone years2 = lastTimezone years) :
    consolidate years2 = some out ∧
    ∀ r ∈ out, ∀ p ∈ r, ∀ e z, p.2 = Value.dt e z →
      lastTimezone years = some z := by
  cases hg : gatherYears years with
  | none => simp [consolidate, hg] at h
  | some pr =>
    obtain ⟨rows, tzo⟩ := pr
    cases tzo with
    | none => simp [consolidate, hg] at h
    | some tz =>
      have hdt : get_datetime rows tz = some out := by
        simpa [consolidate, hg] using h
      have htzy : lastTimezone years = some tz := by
        rcases gatherYearsAux_tz years [] none rows (some tz) hg with
          ⟨hnil, habs⟩ | ⟨_, heq⟩
        · exact absurd habs (by simp)
        · exact heq.symm
      constructor
      · rcases gatherYearsAux_congr years years2 hdata.symm [] none none with
          ⟨habs, _⟩ | ⟨rows2, tzo1, tzo2, hg1, hg2⟩
        · rw [show gatherYears years = gatherYearsAux [] none years from rfl,
            habs] at hg
          exact absurd hg (by simp)
        · have heq1 : rows2 = rows ∧ tzo1 = some tz := by
            have := hg1.symm.trans hg
            simpa using this
          obtain ⟨hrows2, _⟩ := heq1
          subst hrows2
          have htzo2 : tzo2 = some tz := by
            rcases gatherYearsAux_tz years2 [] none rows2 tzo2 hg2 with
              ⟨hnil2, _⟩ | ⟨_, heq2⟩
            · exfalso
              subst hnil2
              simp only [List.map_nil] at hdata
              have hy : years = [] := by
                cases years with
                | nil => rfl
                | cons a as => simp at hdata
              subst hy
              have : (some tz : Option String) = none := by
                simpa [lastTimezone] using htzy.symm
              exact absurd this (by simp)
            · rw [heq2, htz, htzy]
          subst htzo2
          simp [consolidate, show gatherYears years2 = some (rows2, some tz) from hg2,
            hdt]
      · intro r hrout p hp e z hpz
        rw [get_datetime_some rows tz out hdt] at hrout
        have hr2 : r ∈ rows.map (convertRow tz (timeColumnsOf rows)) :=
          ((List.perm_insertionSort timeLe _).mem_iff).mp hrout
        obtain ⟨raw, _, rfl⟩ := List.mem_map.mp hr2
        simp only [convertRow] at hp
        obtain ⟨q, _, rfl⟩ := List.mem_map.mp hp
        by_cases hmem : q.1 ∈ timeColumnsOf rows
        · simp only [if_pos hmem, Value.dt.injEq] at hpz
          rw [htzy, hpz.2]
        · simp only [if_neg hmem] at hpz
          exact absurd hpz (by simp)

/-- C10 witness: changing the timezone field of the non-last payload file
leaves the output unchanged, and both cells carry the last file's
timezone. -/
theorem consolidate_timezone_last_file_witness :
    consolidate yearsTzB = some outTz ∧
    ∀ r ∈ outTz, ∀ p ∈ r, ∀ e z, p.2 = Value.dt e z →
      lastTimezone yearsTzA = some z :=
  consolidate_timezone_last_file yearsTzA yearsTzB outTz
    (by decide) (by decide) (by decide)

/-! #### Claim theorems for year discovery and the cache write -/

/-- C8 counterexample: under the location path `data/raw/porto2` — which
contains a digit — the digitless subdirectory name `misc` passes the
filter and is processed, because the regex is searched in the full glob
path, not in the entry name. -/
theorem year_discovery_counterexample :
    discoverYears "data/raw/porto2" ["misc"] = ["data/raw/porto2/misc"] ∧
    specYearLike "misc" = false := by decide

/-- C8 amended: consolidation processes exactly the subdirectories whose
full glob path (location path, separator, entry name) contains a digit
immediately preceded by a non-newline character — in particular a digit
anywhere in the location path admits every subdirectory — and processes
them in lexicographic order of the full path (which is ascending year
order when the entries are equal-length digit strings). -/
theorem year_discovery (locPath : String) (entries : List String) :
    List.Sorted (fun a b : String => a ≤ b) (discoverYears locPath entries) ∧
    (∀ p, p ∈ discoverYears locPath entries ↔
      ((∃ n ∈ entries, p = locPath ++ "/" ++ n) ∧ yearRegexSearch p = true)) ∧
    (yearRegexSearch (locPath ++ "/") = true →
      ∀ n ∈ entries, locPath ++ "/" ++ n ∈ discoverYears locPath entries) := by
  refine ⟨List.sorted_insertionSort _ _, ?_, ?_⟩
  · intro p
    unfold discoverYears
    rw [(List.perm_insertionSort _ _).mem_iff, List.mem_filter, List.mem_map]
    constructor
    · rintro ⟨⟨n, hn, rfl⟩, hy⟩
      exact ⟨⟨n, hn, rfl⟩, hy⟩
    · rintro ⟨⟨n, hn, rfl⟩, hy⟩
      exact ⟨⟨n, hn, rfl⟩, hy⟩
  · intro hloc n hn
    unfold discoverYears
    rw [(List.perm_insertionSort _ _).mem_iff, List.mem_filter]
    exact ⟨List.mem_map_of_mem _ hn, yearRegexSearch_append (locPath ++ "/") n hloc⟩

/-- C8 amended witness: the filter and ordering facts instantiated on the
digit-bearing location path with a digitless and a year entry. -/
theorem year_discovery_witness :
    List.Sorted (fun a b : String => a ≤ b)
      (discoverYears "data/raw/porto2" ["misc", "2019"]) ∧
    (∀ p, p ∈ discoverYears "data/raw/porto2" ["misc", "2019"] ↔
      ((∃ n ∈ ["misc", "2019"], p = "data/raw/porto2" ++ "/" ++ n) ∧
        yearRegexSearch p = true)) ∧
    (yearRegexSearch ("data/raw/porto2" ++ "/") = true →
      ∀ n ∈ ["misc", "2019"],
        "data/raw/porto2" ++ "/" ++ n ∈
          discoverYears "data/raw/porto2" ["misc", "2019"]) :=
  year_discovery "data/raw/porto2" ["misc", "2019"]

/-- C9 counterexample: immediately after `open(obs_fn, 'w')` the final
cache path holds an empty file — a state that a concurrent or later
`exists` check observes as present although it is neither absent nor the
complete payload, refuting the claimed atomicity. -/
theorem cache_write_not_atomic :
    some ([] : List Char) ∈ jsonWriteStates ['a', 'b'] ∧
    (some ([] : List Char)).isSome = true ∧
    some ([] : List Char) ≠ some ['a', 'b'] := by decide

/-- C9 amended: the write opens the final cache path directly, so from
`open` onward a file is present at the final path in every intermediate
state (each a prefix of the payload, starting with the empty file); a
mid-write failure therefore leaves a partial file at the final path that
a later `exists` check observes as present, rather than no file. -/
theorem cache_write_partial_visible (payload : List Char) :
    (∀ st ∈ jsonWriteStates payload, st.isSome = true) ∧
    (∀ st ∈ jsonWriteStates payload,
      ∃ k, k ≤ payload.length ∧ st = some (payload.take k)) ∧
    some ([] : List Char) ∈ jsonWriteStates payload ∧
    some payload ∈ jsonWriteStates payload := by
  refine ⟨?_, ?_, ?_, ?_⟩
  · intro st hst
    obtain ⟨k, _, rfl⟩ := List.mem_map.mp hst
    rfl
  · intro st hst
    obtain ⟨k, hk, rfl⟩ := List.mem_map.mp hst
    exact ⟨k, Nat.lt_succ_iff.mp (List.mem_range.mp hk), rfl⟩
  · exact List.mem_map.mpr ⟨0, List.mem_range.mpr (Nat.succ_pos _), by simp⟩
  · exact List.mem_map.mpr
      ⟨payload.length, List.mem_range.mpr (Nat.lt_succ_self _), by simp⟩

/-- C9 amended witness: the write states of a concrete two-character
payload. -/
theorem cache_write_partial_visible_witness :
    (∀ st ∈ jsonWriteStates ['a', 'b'], st.isSome = true) ∧
    (∀ st ∈ jsonWriteStates ['a', 'b'],
      ∃ k, k ≤ (['a', 'b'] : List Char).length ∧
        st = some ((['a', 'b'] : List Char).take k)) ∧
    some ([] : List Char) ∈ jsonWriteStates ['a', 'b'] ∧
    some (['a', 'b'] : List Char) ∈ jsonWriteStates ['a', 'b'] :=
  cache_write_partial_visible ['a', 'b']

end WeatherAnalysis
